import Mathlib

/-
  Verification development for the TheraFlow live guided yoga session subsystem.

  Shallow embedding of the live-session code: the tool-call dispatcher and
  manual pose navigation (LiveYogaSession in src/unnamed/part_000), the
  inbound audio playback scheduler (onMessage, lines 379-401), the outbound
  PCM encoder createPcmBlob (lines 211-229), the resource teardown cleanup
  (lines 294-307), and the connect handshake configuration built by
  connectToYogaSession (src/types.ts, lines 330-396).

  JavaScript numbers are modelled as exact rationals; machine 16-bit
  conversions carry an explicit wrap modulo 2 to the 16. Fallible paths
  (decode failures) are modelled as explicit event alternatives.
-/

namespace TheraFlow

/-- A yoga pose, from the Pose interface in src/types.ts. -/
structure Pose where
  sanskrit_name : String
  english_name : String
  duration_seconds : Nat
  instructions : String
  modification : String
  focus : String
deriving Repr, DecidableEq

/-- A generated sequence, from the YogaSequence interface in src/types.ts. -/
structure YogaSequence where
  sequence_title : String
  total_duration_minutes : Nat
  poses : List Pose
deriving Repr, DecidableEq

/-- One entry of msg.toolCall.functionCalls.  The argIndex field holds the
value of the JavaScript expression Number(fc.args[\x22index\x22]): some q for a
finite number q, none for NaN (Number is a host builtin; the repository code
only consumes its result). -/
structure FunctionCall where
  id : String
  name : String
  argIndex : Option ℚ
deriving Repr, DecidableEq

/-- The payload passed to session.sendToolResponse for one call. -/
structure ToolResponse where
  id : String
  name : String
  result : String
deriving Repr, DecidableEq

/-- Success result string from onMessage, line 415 of part_000. -/
def okResult : String := "OK, pose updated."

/-- Failure result string from onMessage, line 423 of part_000. -/
def errResult : String := "Error: Pose index out of bounds."

/-- Handling of a single function call fc inside the toolCall loop of
onMessage (part_000 lines 406-428): calls named setPoseIndex are validated
with the JavaScript test (not isNaN newIndex) and newIndex at least 0 and
newIndex below sequence.poses.length; on success the pose index becomes
newIndex and a success response is produced, otherwise the index is kept and
a failure response is produced; calls with any other name do nothing.
Returns the new pose index and the response sent, if any. -/
def handleFunctionCall (poseCount : ℕ) (idx : ℚ) (fc : FunctionCall) :
    ℚ × Option ToolResponse :=
  if fc.name = "setPoseIndex" then
    match fc.argIndex with
    | some n =>
        if 0 ≤ n ∧ n < (poseCount : ℚ) then
          (n, some ⟨fc.id, fc.name, okResult⟩)
        else
          (idx, some ⟨fc.id, fc.name, errResult⟩)
    | none => (idx, some ⟨fc.id, fc.name, errResult⟩)
  else
    (idx, none)

/-- The whole for-loop over toolCall.functionCalls: processes calls in order,
threading the pose index, and collects the responses that are sent. -/
def processToolCalls (poseCount : ℕ) (idx : ℚ) :
    List FunctionCall → ℚ × List ToolResponse
  | [] => (idx, [])
  | fc :: rest =>
      let r := handleFunctionCall poseCount idx fc
      let rs := processToolCalls poseCount r.1 rest
      (rs.1, r.2.toList ++ rs.2)

/-- Events that change the current pose index during a live session:
the Prev button (part_000 line 508), the Next button (line 516), and an
inbound tool-call message (lines 403-429). -/
inductive NavEvent where
  | prevPose
  | nextPose
  | toolMsg (calls : List FunctionCall)
deriving Repr, DecidableEq

/-- One pose-index transition.  Prev computes Math.max(0, prev - 1), Next
computes Math.min(sequence.poses.length - 1, prev + 1), a tool message runs
the dispatcher loop. -/
def navStep (poseCount : ℕ) (idx : ℚ) : NavEvent → ℚ
  | .prevPose => max 0 (idx - 1)
  | .nextPose => min ((poseCount : ℚ) - 1) (idx + 1)
  | .toolMsg calls => (processToolCalls poseCount idx calls).1

/-- The pose index reached from idx after a list of navigation events.
The initial value of the useState hook (part_000 line 246) is 0. -/
def runNav (poseCount : ℕ) (idx : ℚ) : List NavEvent → ℚ
  | [] => idx
  | e :: es => runNav poseCount (navStep poseCount idx e) es

/-- A sequence with an empty pose list, as data for the initialization case. -/
def emptySequence : YogaSequence := ⟨"Empty", 0, []⟩

/-- One record of a scheduled playback unit: the value of nextStartTimeRef
when the chunk was processed, the output-clock reading ctx.currentTime at
that moment, the start time passed to source.start, and the duration of the
decoded buffer. -/
structure SchedLogEntry where
  prevNext : ℚ
  clockNow : ℚ
  start : ℚ
  dur : ℚ
deriving Repr, DecidableEq

/-- Scheduler state: nextStartTimeRef, the isSpeaking flag, the set
sourcesRef of pending AudioBufferSourceNodes (identified by the order in
which they were created), a counter providing fresh identifiers, and a log
of every scheduled chunk in scheduling order. -/
structure SchedState where
  nextStartTime : ℚ
  isSpeaking : Bool
  pending : Finset ℕ
  counter : ℕ
  log : List SchedLogEntry
deriving DecidableEq

/-- Initial scheduler state: nextStartTimeRef starts at 0 (part_000 line
256), isSpeaking at false (line 249), sourcesRef empty (line 258). -/
def initSched : SchedState := ⟨0, false, ∅, 0, []⟩

/-- Events delivered to the playback scheduler.  An audio event carries the
output-clock reading when the message is processed and the byte length of
the payload after base64 decoding (an odd length makes the Int16Array
constructor in decodeAudioData throw).  A badBase64 event is a payload on
which atob throws inside base64ToUint8Array.  An ended event is the ended
listener of a previously created source firing. -/
inductive ServerAudioEvent where
  | audio (clockNow : ℚ) (byteLen : ℕ)
  | badBase64 (clockNow : ℚ)
  | ended (sid : ℕ)
deriving Repr, DecidableEq

/-- Duration in seconds of a decoded buffer: frameCount / sampleRate with
frameCount = byteLen / 2 and the 24000 Hz rate of decodeAudioData. -/
def chunkDuration (byteLen : ℕ) : ℚ := ((byteLen / 2 : ℕ) : ℚ) / 24000

/-- One scheduler transition, from onMessage (part_000 lines 379-401) and
the ended listener (lines 393-396).  For an audio message the code runs
setIsSpeaking(true), then nextStartTime := max nextStartTime ctx.currentTime,
then decodes (throwing on a malformed payload, which abandons the rest of
the handler), then source.start nextStartTime, nextStartTime += duration,
and adds the source to the set.  The ended listener deletes its source from
the set and clears isSpeaking when the set became empty. -/
def schedStep (st : SchedState) : ServerAudioEvent → SchedState
  | .audio clockNow byteLen =>
      let n1 := max st.nextStartTime clockNow
      if byteLen % 2 = 0 then
        { nextStartTime := n1 + chunkDuration byteLen
          isSpeaking := true
          pending := insert st.counter st.pending
          counter := st.counter + 1
          log := st.log ++ [⟨st.nextStartTime, clockNow, n1, chunkDuration byteLen⟩] }
      else
        { st with nextStartTime := n1, isSpeaking := true }
  | .badBase64 clockNow =>
      { st with nextStartTime := max st.nextStartTime clockNow, isSpeaking := true }
  | .ended sid =>
      let p := st.pending.erase sid
      { st with pending := p, isSpeaking := if p = ∅ then false else st.isSpeaking }

/-- Scheduler state after a list of events. -/
def runSched (st : SchedState) : List ServerAudioEvent → SchedState
  | [] => st
  | e :: es => runSched (schedStep st e) es

/-- The output-clock reading carried by an event, when it has one. -/
def eventClock : ServerAudioEvent → Option ℚ
  | .audio t _ => some t
  | .badBase64 t => some t
  | .ended _ => none

/-- Observable part of a log entry: clock reading, scheduled start, duration. -/
def SchedLogEntry.obs (e : SchedLogEntry) : ℚ × ℚ × ℚ := (e.clockNow, e.start, e.dur)

/-- An event whose processing does not hit a decode failure. -/
def goodEvent : ServerAudioEvent → Bool
  | .audio _ byteLen => byteLen % 2 = 0
  | .badBase64 _ => false
  | .ended _ => true

/-- The observable schedule produced by a list of events when the scheduler
enters with nextStartTime value n: for each well-formed chunk, its clock
reading, scheduled start and duration. -/
def schedOf (n : ℚ) : List ServerAudioEvent → List (ℚ × ℚ × ℚ)
  | [] => []
  | .audio t b :: es =>
      if b % 2 = 0 then
        (t, max n t, chunkDuration b) :: schedOf (max n t + chunkDuration b) es
      else
        schedOf (max n t) es
  | .badBase64 t :: es => schedOf (max n t) es
  | .ended _ :: es => schedOf n es

/-- Scheduling invariant for claim C1: every logged chunk started at the
maximum of the nextStartTime marker and the clock reading, no earlier than
the clock, its interval ends no later than the current marker, and the
logged intervals are pairwise disjoint in order. -/
def SchedInv (st : SchedState) : Prop :=
  (∀ e ∈ st.log, e.start = max e.prevNext e.clockNow)
  ∧ (∀ e ∈ st.log, e.clockNow ≤ e.start)
  ∧ (∀ e ∈ st.log, e.start + e.dur ≤ st.nextStartTime)
  ∧ st.log.Pairwise (fun a b => a.start + a.dur ≤ b.start)

/-- Speaking-flag invariant for claim C4: the flag is set exactly when the
pending set is non-empty, and every pending source identifier was allocated
below the current counter (so a newly created source is always fresh). -/
def SpeakInv (st : SchedState) : Prop :=
  (st.isSpeaking = true ↔ st.pending ≠ ∅) ∧ ∀ sid ∈ st.pending, sid < st.counter

/-- Truncation toward zero of a rational, as JavaScript number-to-integer
conversion does in step 3 of ToInt16. -/
def jsTrunc (q : ℚ) : ℤ := if 0 ≤ q then ⌊q⌋ else ⌈q⌉

/-- Storing a number into an Int16Array element: ECMAScript ToInt16, i.e.
truncate toward zero and wrap modulo 2 to the 16 into the signed range. -/
def toInt16 (q : ℚ) : ℤ := (jsTrunc q + 32768) % 65536 - 32768

/-- The per-sample conversion of createPcmBlob (part_000 line 215):
int16[i] = data[i] * 32768. -/
def pcmSample (x : ℚ) : ℤ := toInt16 (x * 32768)

/-- The Int16Array contents produced by the loop of createPcmBlob. -/
def pcmSamples (data : List ℚ) : List ℤ := data.map pcmSample

/-- The two bytes of an Int16Array element as seen through a Uint8Array view
of its buffer: little-endian bytes of the 16-bit two\x27s-complement word. -/
def int16ToBytesLE (v : ℤ) : List ℕ :=
  [(v % 65536).toNat % 256, (v % 65536).toNat / 256]

/-- Byte view of the whole Int16Array buffer, in order. -/
def int16sToBytesLE : List ℤ → List ℕ
  | [] => []
  | v :: vs => int16ToBytesLE v ++ int16sToBytesLE vs

/-- Inverse reading of a little-endian byte stream as signed 16-bit values
(how the receiving end, and decodeAudioData itself, interprets the bytes). -/
def bytesToInt16sLE : List ℕ → List ℤ
  | lo :: hi :: rest =>
      (if lo + 256 * hi < 32768 then ((lo + 256 * hi : ℕ) : ℤ)
       else ((lo + 256 * hi : ℕ) : ℤ) - 65536) :: bytesToInt16sLE rest
  | _ => []

/-- The base64 alphabet used by btoa. -/
def base64Alphabet : String :=
  "ABCDEFGHIJKLMNOPQRSTUVWXYZabcdefghijklmnopqrstuvwxyz0123456789+/"

/-- Character for a 6-bit group. -/
def b64Char (i : ℕ) : Char := base64Alphabet.toList.getD i (Char.ofNat 65)

/-- The base64 padding character. -/
def padChar : Char := Char.ofNat 61

/-- btoa on a byte sequence: standard base64, three bytes to four chars,
with padding on a final group of one or two bytes. -/
def base64Encode : List ℕ → List Char
  | [] => []
  | [a] => [b64Char (a / 4), b64Char (a % 4 * 16), padChar, padChar]
  | [a, b] =>
      [b64Char (a / 4), b64Char (a % 4 * 16 + b / 16), b64Char (b % 16 * 4), padChar]
  | a :: b :: c :: rest =>
      b64Char (a / 4) :: b64Char (a % 4 * 16 + b / 16) ::
      b64Char (b % 16 * 4 + c / 64) :: b64Char (c % 64) :: base64Encode rest

/-- Index of a character in the base64 alphabet. -/
def b64Index (c : Char) : ℕ := base64Alphabet.toList.indexOf c

/-- Standard base64 decoding (atob), the inverse reading of base64Encode. -/
def base64Decode : List Char → List ℕ
  | c1 :: c2 :: c3 :: c4 :: rest =>
      if c3 = padChar then
        [b64Index c1 * 4 + b64Index c2 / 16]
      else if c4 = padChar then
        [b64Index c1 * 4 + b64Index c2 / 16,
         b64Index c2 % 16 * 16 + b64Index c3 / 4]
      else
        (b64Index c1 * 4 + b64Index c2 / 16) ::
        (b64Index c2 % 16 * 16 + b64Index c3 / 4) ::
        (b64Index c3 % 4 * 64 + b64Index c4) :: base64Decode rest
  | _ => []

/-- The blob returned by createPcmBlob (part_000 lines 211-229). -/
structure PcmBlob where
  data : List Char
  mimeType : String
deriving Repr, DecidableEq

/-- createPcmBlob: scale every float sample by 32768 into an Int16Array,
view its buffer as bytes, base64-encode them, and tag the PCM format.
Exactly one blob is produced per input block. -/
def createPcmBlob (data : List ℚ) : PcmBlob :=
  ⟨base64Encode (int16sToBytesLE (pcmSamples data)), "audio/pcm;rate=16000"⟩

/-- A Web Audio context as the session creates it: its sample rate and
whether close() has been called on it. -/
structure AudioCtxRec where
  sampleRate : ℕ
  closed : Bool
deriving Repr, DecidableEq

/-- Resource state of one LiveYogaSession mount: the ledger of every audio
context constructed so far (identified by creation order), which one the
audioContextRef ref holds, and the stream, timer and processor resources
tracked by the cleanup refs (part_000 lines 260-263). -/
structure LiveRes where
  contexts : List AudioCtxRec
  audioContextRef : Option ℕ
  streamAcquired : Bool
  tracksStopped : Bool
  timerActive : Bool
  frameIntervalSet : Bool
  processorConnected : Bool
  processorSet : Bool
deriving Repr, DecidableEq

/-- State on mount: no resources acquired, every ref null. -/
def initLiveRes : LiveRes := ⟨[], none, false, false, false, false, false, false⟩

/-- initCamera (part_000 lines 268-284): acquires the camera+microphone
stream and stores it in streamRef. -/
def initCamera (r : LiveRes) : LiveRes :=
  { r with streamAcquired := true, tracksStopped := false }

/-- handleStartSession (part_000 lines 309-323): constructs inputCtx at
16000 Hz and outputCtx at 24000 Hz, and stores only outputCtx in
audioContextRef (line 323); inputCtx stays a local variable. -/
def handleStartSession (r : LiveRes) : LiveRes :=
  { r with
    contexts := r.contexts ++ [⟨16000, false⟩, ⟨24000, false⟩],
    audioContextRef := some (r.contexts.length + 1) }

/-- The onOpen callback (part_000 lines 327-378): creates and connects the
script processor, storing it in processorRef, and starts the 500 ms frame
interval, storing its id in frameIntervalRef. -/
def sessionOnOpen (r : LiveRes) : LiveRes :=
  { r with
    processorSet := true, processorConnected := true,
    timerActive := true, frameIntervalSet := true }

/-- Close the context with a given creation index. -/
def closeCtxAt (cs : List AudioCtxRec) (i : ℕ) : List AudioCtxRec :=
  cs.mapIdx fun j c => if j = i then { c with closed := true } else c

/-- cleanup (part_000 lines 294-307): stops the tracks of streamRef if set,
closes the context held in audioContextRef if set, clears the frame timer if
set, disconnects the processor if set.  Nothing else is released. -/
def cleanup (r : LiveRes) : LiveRes :=
  let r1 := if r.streamAcquired then { r with tracksStopped := true } else r
  let r2 :=
    match r1.audioContextRef with
    | some i => { r1 with contexts := closeCtxAt r1.contexts i }
    | none => r1
  let r3 := if r2.frameIntervalSet then { r2 with timerActive := false } else r2
  if r3.processorSet then { r3 with processorConnected := false } else r3

/-- Resource state after the full session lifecycle: mount, start the
session, connection opens, then teardown. -/
def sessionTeardownRun : LiveRes :=
  cleanup (sessionOnOpen (handleStartSession (initCamera initLiveRes)))

/-- Schema value kinds of the tool-parameter declaration (the Type enum of
the client library, as used in src/types.ts). -/
inductive GType where
  | object
  | integer
  | strType
  | arrType
deriving Repr, DecidableEq

/-- One declared parameter property: its key, kind and description. -/
structure ParamProperty where
  key : String
  kind : GType
  description : String
deriving Repr, DecidableEq

/-- The parameters block of a function declaration. -/
structure ToolParameters where
  kind : GType
  properties : List ParamProperty
  required : List String
deriving Repr, DecidableEq

/-- A declared tool function. -/
structure FunctionDeclarationRec where
  name : String
  description : String
  parameters : ToolParameters
deriving Repr, DecidableEq

/-- Response modalities of the live connect config. -/
inductive Modality where
  | audio
  | text
deriving Repr, DecidableEq

/-- The live connect configuration assembled by connectToYogaSession
(src/types.ts lines 330-396): model name, requested response modalities,
system instruction text, tool groups (each a list of function declarations),
and the voice name. -/
structure LiveConnectConfig where
  model : String
  responseModalities : List Modality
  systemInstruction : String
  tools : List (List FunctionDeclarationRec)
  voiceName : String
deriving Repr, DecidableEq

/-- The setPoseIndexTool declaration (src/types.ts lines 345-358). -/
def setPoseIndexTool : FunctionDeclarationRec :=
  { name := "setPoseIndex"
    description := "Move the user to a specific pose in the sequence. Call this when the user says \x27Next\x27, \x27Previous\x27, or asks to move to a specific step."
    parameters :=
      { kind := GType.object
        properties :=
          [⟨"index", GType.integer, "The 0-based index of the pose to move to."⟩]
        required := ["index"] } }

/-- One line of the Sequence Plan in the system prompt, for the pose at
0-based position i: the map callback of src/types.ts line 365. -/
def poseLine (i : ℕ) (p : Pose) : String :=
  toString i ++ ". " ++ p.english_name ++ ". Mod: " ++ p.modification

/-- The plan lines for the poses starting at position i, in sequence order. -/
def posePlanLines : ℕ → List Pose → List String
  | _, [] => []
  | i, p :: ps => poseLine i p :: posePlanLines (i + 1) ps

/-- Text of the system prompt before the Sequence Plan lines. -/
def systemPromptHeader : String :=
  "\n    You are a Live Yoga Instructor named \x22TheraFlow AI\x22.\n    You are guiding a student through a therapeutic sequence.\n    \n    Sequence Plan:\n    "

/-- Text of the system prompt after the Sequence Plan lines. -/
def systemPromptFooter : String :=
  "\n\n    CRITICAL INSTRUCTIONS FOR COMPUTER VISION:\n    1. You are receiving a continuous stream of images from the user\x27s camera.\n    2. If the user asks \x22Check my form\x22, \x22Am I doing this right?\x22, or \x22How does this look?\x22, you MUST immediately analyze the latest image you received.\n    3. Provide specific, corrective feedback based on the CURRENT POSE. E.g., \x22Lift your chest higher,\x22 or \x22Keep that knee bent.\x22\n    4. If the user is doing the pose correctly, give positive reinforcement.\n\n    GENERAL INTERACTION:\n    - Be concise. The user is holding a pose.\n    - If they say \x22Next\x22, use the \x27setPoseIndex\x27 tool to move forward.\n    - Keep your tone soothing but authoritative on safety.\n  "

/-- The behavioral directive text sent in the handshake: the template
literal of src/types.ts lines 360-377, whose middle joins the plan line of
every pose with newlines. -/
def systemPrompt (sequence : YogaSequence) : String :=
  systemPromptHeader ++ String.intercalate "\n" (posePlanLines 0 sequence.poses)
    ++ systemPromptFooter

/-- The configuration passed to ai.live.connect by connectToYogaSession. -/
def connectToYogaSession (sequence : YogaSequence) : LiveConnectConfig :=
  { model := "gemini-2.5-flash-native-audio-preview-09-2025"
    responseModalities := [Modality.audio]
    systemInstruction := systemPrompt sequence
    tools := [[setPoseIndexTool]]
    voiceName := "Zephyr" }

/-- A concrete event trace used to instantiate the scheduler theorems. -/
def demoEvents : List ServerAudioEvent :=
  [.audio 0 48000, .audio (1 / 2) 24000, .ended 0, .ended 1]

/-- Dispatching a call that is not named setPoseIndex leaves the index alone
and sends nothing. -/
theorem hfc_other_name (c : ℕ) (idx : ℚ) (fc : FunctionCall)
    (hname : fc.name ≠ "setPoseIndex") :
    handleFunctionCall c idx fc = (idx, none) := by
  simp [handleFunctionCall, hname]

/-- Dispatching a setPoseIndex call always sends back exactly one response,
carrying the identifier and name of the call. -/
theorem hfc_some_response (c : ℕ) (idx : ℚ) (fc : FunctionCall)
    (hname : fc.name = "setPoseIndex") :
    ∃ res : String, (handleFunctionCall c idx fc).2 = some ⟨fc.id, fc.name, res⟩ := by
  simp only [handleFunctionCall, hname, if_pos]
  cases fc.argIndex with
  | none => exact ⟨errResult, rfl⟩
  | some n =>
      by_cases hr : 0 ≤ n ∧ n < (c : ℚ)
      · exact ⟨okResult, by simp [hr]⟩
      · exact ⟨errResult, by simp [hr]⟩

/-- The dispatcher keeps the pose index inside [0, poseCount) when it was
inside before. -/
theorem hfc_fst_bound (c : ℕ) (idx : ℚ) (fc : FunctionCall)
    (h0 : 0 ≤ idx) (h1 : idx < (c : ℚ)) :
    0 ≤ (handleFunctionCall c idx fc).1 ∧ (handleFunctionCall c idx fc).1 < (c : ℚ) := by
  by_cases hname : fc.name = "setPoseIndex"
  · simp only [handleFunctionCall, hname, if_pos]
    cases fc.argIndex with
    | none => exact ⟨h0, h1⟩
    | some n =>
        by_cases hr : 0 ≤ n ∧ n < (c : ℚ)
        · simp [hr]
        · simpa [hr] using ⟨h0, h1⟩
  · simp [hfc_other_name c idx fc hname, h0, h1]

/-- The loop over a whole tool-call message keeps the pose index in bounds. -/
theorem ptc_fst_bound (c : ℕ) (calls : List FunctionCall) :
    ∀ idx : ℚ, 0 ≤ idx → idx < (c : ℚ) →
      0 ≤ (processToolCalls c idx calls).1 ∧ (processToolCalls c idx calls).1 < (c : ℚ) := by
  induction calls with
  | nil => intro idx h0 h1; exact ⟨h0, h1⟩
  | cons fc rest ih =>
      intro idx h0 h1
      have hb := hfc_fst_bound c idx fc h0 h1
      simp only [processToolCalls]
      exact ih _ hb.1 hb.2

/-- The loop answers exactly the calls named setPoseIndex, in order, with
one response each, tied to the identifier and name of the call. -/
theorem ptc_response_ids (c : ℕ) (calls : List FunctionCall) :
    ∀ idx : ℚ,
      (processToolCalls c idx calls).2.map (fun r => (r.id, r.name))
        = (calls.filter fun g => g.name == "setPoseIndex").map fun g => (g.id, g.name) := by
  induction calls with
  | nil => intro idx; simp [processToolCalls]
  | cons fc rest ih =>
      intro idx
      by_cases hname : fc.name = "setPoseIndex"
      · obtain ⟨res, hres⟩ := hfc_some_response c idx fc hname
        simp [processToolCalls, hres, List.filter_cons, hname, ih]
      · simp [processToolCalls, hfc_other_name c idx fc hname, List.filter_cons, hname, ih]

/-- Calls whose name is not setPoseIndex are transparent to the loop. -/
theorem ptc_filter (c : ℕ) (calls : List FunctionCall) :
    ∀ idx : ℚ,
      processToolCalls c idx calls
        = processToolCalls c idx (calls.filter fun g => g.name == "setPoseIndex") := by
  induction calls with
  | nil => intro idx; rfl
  | cons fc rest ih =>
      intro idx
      by_cases hname : fc.name = "setPoseIndex"
      · simp only [List.filter_cons, hname]
        simp only [processToolCalls, ih]
      · simp only [List.filter_cons, hname]
        simp only [processToolCalls, hfc_other_name c idx fc hname, ih, Option.toList_none,
          List.nil_append]
        simp [hname]

/-- Claim C10: a function call whose name is not setPoseIndex is silently
ignored — no response of any kind is produced for it and the pose index is
unchanged; the loop over a message behaves exactly as if only the calls
named setPoseIndex were present, so only those ever produce a response. -/
theorem C10_unknown_tool_ignored (c : ℕ) (idx : ℚ) (fc : FunctionCall)
    (hname : fc.name ≠ "setPoseIndex") :
    handleFunctionCall c idx fc = (idx, none)
    ∧ ∀ calls : List FunctionCall,
        processToolCalls c idx calls
          = processToolCalls c idx (calls.filter fun g => g.name == "setPoseIndex") := by
  exact ⟨hfc_other_name c idx fc hname, fun calls => ptc_filter c calls idx⟩

/-- Witness for C10 at a concrete call named checkForm. -/
theorem C10_unknown_tool_ignored_witness :
    ("checkForm" : String) ≠ "setPoseIndex"
    ∧ handleFunctionCall 3 0 ⟨"call-9", "checkForm", some 1⟩ = (0, none) := by
  have hname : ("checkForm" : String) ≠ "setPoseIndex" := by decide
  exact ⟨hname, (C10_unknown_tool_ignored 3 0 ⟨"call-9", "checkForm", some 1⟩ hname).1⟩

/-- Counterexample to claim C2 as stated: the code validates with
Number(...) plus a range test and never checks integrality, so the call
setPoseIndex(1.5) on a 3-pose sequence is accepted — the pose index becomes
the non-integer 1.5 and a success response is sent, where the claim requires
an unchanged index and a failure response. -/
theorem C2_counterexample_noninteger_index :
    (handleFunctionCall 3 0 ⟨"call-1", "setPoseIndex", some (3 / 2)⟩).1 = 3 / 2
    ∧ (handleFunctionCall 3 0 ⟨"call-1", "setPoseIndex", some (3 / 2)⟩).2
        = some ⟨"call-1", "setPoseIndex", okResult⟩
    ∧ (3 / 2 : ℚ) ≠ 0
    ∧ ∀ k : ℤ, (3 / 2 : ℚ) ≠ (k : ℚ) := by
  refine ⟨by norm_num [handleFunctionCall], by norm_num [handleFunctionCall], by norm_num, ?_⟩
  intro k hk
  have h2 : (3 : ℚ) = (k : ℚ) * 2 := by
    field_simp at hk
    linarith
  have h3 : (3 : ℤ) = k * 2 := by exact_mod_cast h2
  omega

/-- Claim C2 as amended: for a setPoseIndex call, when Number of the index
argument is a (not necessarily integral) number n with 0 <= n < poseCount
the pose index becomes n and the success response is sent; when it is NaN or
out of range the index is unchanged and the failure response is sent; in
either case exactly one response tied to the call is sent, and in a message
carrying several calls every setPoseIndex call receives its own response, in
order, tied to its identifier. -/
theorem C2_setPoseIndex_one_response (c : ℕ) (idx : ℚ) (fc : FunctionCall)
    (hname : fc.name = "setPoseIndex") :
    (∀ n : ℚ, fc.argIndex = some n → 0 ≤ n → n < (c : ℚ) →
      handleFunctionCall c idx fc = (n, some ⟨fc.id, fc.name, okResult⟩))
    ∧ (∀ n : ℚ, fc.argIndex = some n → ¬ (0 ≤ n ∧ n < (c : ℚ)) →
      handleFunctionCall c idx fc = (idx, some ⟨fc.id, fc.name, errResult⟩))
    ∧ (fc.argIndex = none →
      handleFunctionCall c idx fc = (idx, some ⟨fc.id, fc.name, errResult⟩))
    ∧ (handleFunctionCall c idx fc).2.isSome = true
    ∧ ∀ calls : List FunctionCall,
        (processToolCalls c idx calls).2.map (fun r => (r.id, r.name))
          = (calls.filter fun g => g.name == "setPoseIndex").map fun g => (g.id, g.name) := by
  obtain ⟨res, hres⟩ := hfc_some_response c idx fc hname
  refine ⟨?_, ?_, ?_, by simp [hres], fun calls => ptc_response_ids c calls idx⟩
  · intro n hn h0 h1
    simp [handleFunctionCall, hname, hn, h0, h1]
  · intro n hn hr
    simp [handleFunctionCall, hname, hn, hr]
  · intro hn
    simp [handleFunctionCall, hname, hn]

/-- Witness for C2 at the scenario of the specification: a 3-pose sequence
and the call setPoseIndex(1). -/
theorem C2_setPoseIndex_one_response_witness :
    (("setPoseIndex" : String) = "setPoseIndex")
    ∧ handleFunctionCall 3 0 ⟨"call-2", "setPoseIndex", some 1⟩
        = (1, some ⟨"call-2", "setPoseIndex", okResult⟩) := by
  have h := (C2_setPoseIndex_one_response 3 0 ⟨"call-2", "setPoseIndex", some 1⟩ rfl).1
  exact ⟨rfl, by simpa using h 1 rfl (by norm_num) (by norm_num)⟩

/-- One manual or voice navigation step keeps the index in bounds when the
pose list is non-empty. -/
theorem navStep_bound (c : ℕ) (hc : 0 < c) (idx : ℚ) (e : NavEvent)
    (h0 : 0 ≤ idx) (h1 : idx < (c : ℚ)) :
    0 ≤ navStep c idx e ∧ navStep c idx e < (c : ℚ) := by
  have hcq : (0 : ℚ) < (c : ℚ) := by exact_mod_cast hc
  have hcq1 : (1 : ℚ) ≤ (c : ℚ) := by exact_mod_cast hc
  cases e with
  | prevPose =>
      constructor
      · exact le_max_left 0 _
      · have hlt : idx - 1 < (c : ℚ) := by linarith
        simpa [navStep] using max_lt hcq hlt
  | nextPose =>
      constructor
      · exact le_min (by linarith) (by linarith)
      · calc min ((c : ℚ) - 1) (idx + 1) ≤ (c : ℚ) - 1 := min_le_left _ _
          _ < (c : ℚ) := by linarith
  | toolMsg calls => exact ptc_fst_bound c calls idx h0 h1

/-- Running any list of navigation events from an in-bounds index stays in
bounds, for a non-empty pose list. -/
theorem runNav_bound (c : ℕ) (hc : 0 < c) (events : List NavEvent) :
    ∀ idx : ℚ, 0 ≤ idx → idx < (c : ℚ) →
      0 ≤ runNav c idx events ∧ runNav c idx events < (c : ℚ) := by
  induction events with
  | nil => intro idx h0 h1; exact ⟨h0, h1⟩
  | cons e es ih =>
      intro idx h0 h1
      have hb := navStep_bound c hc idx e h0 h1
      simpa only [runNav] using ih _ hb.1 hb.2

/-- Counterexample to claim C3 as stated: with an empty pose list the
initial session state already violates the invariant — the index is
initialized to 0 but 0 < len(poses) fails, so the invariant does not hold at
initialization when the pose list is empty. -/
theorem C3_counterexample_empty_poses :
    runNav emptySequence.poses.length 0 [] = 0
    ∧ ¬ (runNav emptySequence.poses.length 0 []
          < (emptySequence.poses.length : ℚ)) := by
  constructor
  · rfl
  · simp [runNav, emptySequence]

/-- Claim C3 as amended: for a live session over a non-empty pose list, the
pose index satisfies 0 <= index < len(poses) in every reachable state — at
start (index 0), after every Prev/Next click, and after every tool-call
message, in any order. -/
theorem C3_pose_index_in_bounds (c : ℕ) (events : List NavEvent) (hc : 0 < c) :
    0 ≤ runNav c 0 events ∧ runNav c 0 events < (c : ℚ) := by
  have hcq : (0 : ℚ) < (c : ℚ) := by exact_mod_cast hc
  exact runNav_bound c hc events 0 le_rfl hcq

/-- Witness for C3: a 3-pose sequence with a Next click, the accepted voice
call setPoseIndex(2), and a Prev click. -/
theorem C3_pose_index_in_bounds_witness :
    0 < 3
    ∧ (0 ≤ runNav 3 0 [.nextPose, .toolMsg [⟨"c", "setPoseIndex", some 2⟩], .prevPose]
        ∧ runNav 3 0 [.nextPose, .toolMsg [⟨"c", "setPoseIndex", some 2⟩], .prevPose]
            < ((3 : ℕ) : ℚ)) := by
  exact ⟨by norm_num,
    C3_pose_index_in_bounds 3 [.nextPose, .toolMsg [⟨"c", "setPoseIndex", some 2⟩], .prevPose]
      (by norm_num)⟩

/-- Durations of decoded buffers are never negative. -/
theorem chunkDuration_nonneg (b : ℕ) : 0 ≤ chunkDuration b := by
  unfold chunkDuration
  positivity

/-- Every single scheduler transition preserves the scheduling invariant. -/
theorem schedInv_step (st : SchedState) (ev : ServerAudioEvent) (h : SchedInv st) :
    SchedInv (schedStep st ev) := by
  obtain ⟨h1, h2, h3, h4⟩ := h
  have hd : ∀ b : ℕ, 0 ≤ chunkDuration b := chunkDuration_nonneg
  cases ev with
  | audio t b =>
      by_cases hb : b % 2 = 0
      · simp only [schedStep, hb, if_pos]
        refine ⟨?_, ?_, ?_, ?_⟩
        · intro e he
          rcases List.mem_append.mp he with hm | hm
          · exact h1 e hm
          · simp only [List.mem_singleton] at hm
            subst hm
            rfl
        · intro e he
          rcases List.mem_append.mp he with hm | hm
          · exact h2 e hm
          · simp only [List.mem_singleton] at hm
            subst hm
            exact le_max_right _ _
        · intro e he
          rcases List.mem_append.mp he with hm | hm
          · have := h3 e hm
            have hle : st.nextStartTime ≤ max st.nextStartTime t := le_max_left _ _
            have := hd b
            dsimp only
            linarith
          · simp only [List.mem_singleton] at hm
            subst hm
            exact le_rfl
        · rw [List.pairwise_append]
          refine ⟨h4, List.pairwise_singleton _ _, ?_⟩
          intro a ha e he
          simp only [List.mem_singleton] at he
          subst he
          have := h3 a ha
          have hle : st.nextStartTime ≤ max st.nextStartTime t := le_max_left _ _
          dsimp only
          linarith
      · simp only [schedStep, hb, if_neg, if_false]
        refine ⟨h1, h2, ?_, h4⟩
        intro e he
        have := h3 e he
        have hle : st.nextStartTime ≤ max st.nextStartTime t := le_max_left _ _
        dsimp only
        linarith
  | badBase64 t =>
      simp only [schedStep]
      refine ⟨h1, h2, ?_, h4⟩
      intro e he
      have := h3 e he
      have hle : st.nextStartTime ≤ max st.nextStartTime t := le_max_left _ _
      dsimp only
      linarith
  | ended sid =>
      simp only [schedStep]
      exact ⟨h1, h2, h3, h4⟩

/-- Running any event list preserves the scheduling invariant. -/
theorem schedInv_run (es : List ServerAudioEvent) :
    ∀ st : SchedState, SchedInv st → SchedInv (runSched st es) := by
  induction es with
  | nil => intro st h; exact h
  | cons e es ih =>
      intro st h
      exact ih _ (schedInv_step st e h)

/-- The initial scheduler state satisfies the scheduling invariant. -/
theorem schedInv_init : SchedInv initSched := by
  refine ⟨?_, ?_, ?_, ?_⟩ <;> simp [initSched, SchedInv]

/-- Claim C1: over any sequence of inbound events, every scheduled chunk
starts exactly at max(nextStartTime, outputClockNow) read when it was
processed, never before the output clock, and the scheduled intervals are
pairwise non-overlapping in order — so no chunk starts before the end of any
prior chunk. -/
theorem C1_scheduler_no_overlap (events : List ServerAudioEvent) :
    (∀ e ∈ (runSched initSched events).log, e.start = max e.prevNext e.clockNow)
    ∧ (∀ e ∈ (runSched initSched events).log, e.clockNow ≤ e.start)
    ∧ (runSched initSched events).log.Pairwise fun a b => a.start + a.dur ≤ b.start := by
  obtain ⟨h1, h2, _, h4⟩ := schedInv_run events initSched schedInv_init
  exact ⟨h1, h2, h4⟩

/-- Witness for C1 on a concrete burst of two chunks and their completions. -/
theorem C1_scheduler_no_overlap_witness :
    (runSched initSched demoEvents).log.Pairwise (fun a b => a.start + a.dur ≤ b.start)
    ∧ ∀ e ∈ (runSched initSched demoEvents).log, e.clockNow ≤ e.start := by
  exact ⟨(C1_scheduler_no_overlap demoEvents).2.2, (C1_scheduler_no_overlap demoEvents).2.1⟩

/-- Every decode-failure-free transition preserves the speaking-flag
invariant. -/
theorem speakInv_step (st : SchedState) (ev : ServerAudioEvent)
    (hg : goodEvent ev = true) (h : SpeakInv st) : SpeakInv (schedStep st ev) := by
  obtain ⟨h1, h2⟩ := h
  cases ev with
  | audio t b =>
      have hb : b % 2 = 0 := by simpa [goodEvent] using hg
      simp only [schedStep, hb, if_pos]
      constructor
      · simp [Finset.insert_ne_empty]
      · intro sid hsid
        have hsid2 : sid ∈ insert st.counter st.pending := hsid
        have hlt : sid < st.counter + 1 := by
          rcases Finset.mem_insert.mp hsid2 with hs | hs
          · omega
          · have := h2 sid hs
            omega
        exact hlt
  | badBase64 t => simp [goodEvent] at hg
  | ended sid =>
      simp only [schedStep]
      by_cases hp : st.pending.erase sid = ∅
      · constructor
        · simp [hp]
        · intro x hx
          rw [hp] at hx
          simp at hx
      · constructor
        · have hpe : st.pending ≠ ∅ := by
            intro hcon
            apply hp
            rw [hcon]
            simp
          simp only [hp, if_neg, if_false]
          simpa [hp] using h1.mpr hpe
        · intro x hx
          exact h2 x (Finset.mem_of_mem_erase hx)

/-- Running a decode-failure-free event list preserves the speaking-flag
invariant. -/
theorem speakInv_run (es : List ServerAudioEvent) :
    ∀ st : SchedState, (∀ ev ∈ es, goodEvent ev = true) → SpeakInv st →
      SpeakInv (runSched st es) := by
  induction es with
  | nil => intro st _ h; exact h
  | cons e es ih =>
      intro st hg h
      exact ih _ (fun ev hev => hg ev (List.mem_cons_of_mem e hev))
        (speakInv_step st e (hg e (List.mem_cons_self e es)) h)

/-- Counterexample to claim C4 as stated: a malformed inbound audio payload
sets the speaking flag (part_000 line 383) before the decode throws (line
388), so the session reaches a settled state where the speaking flag is true
while the pending-playback set is empty — the claimed equivalence fails at
that observation point. -/
theorem C4_counterexample_decode_failure :
    (runSched initSched [.badBase64 0]).isSpeaking = true
    ∧ (runSched initSched [.badBase64 0]).pending = ∅ := by
  constructor <;> rfl

/-- Claim C4 as amended: at every observation point of a session in which
every inbound audio payload decodes successfully, the speaking flag is true
exactly when the set of pending scheduled sources is non-empty, also with
several chunks in flight; moreover every pending source identifier is below
the allocation counter, so each newly scheduled unit is inserted as a fresh
element (inserted exactly once, and erased on its completion event). -/
theorem C4_speaking_iff_pending (es : List ServerAudioEvent)
    (hg : ∀ ev ∈ es, goodEvent ev = true) :
    ((runSched initSched es).isSpeaking = true ↔ (runSched initSched es).pending ≠ ∅)
    ∧ ∀ sid ∈ (runSched initSched es).pending, sid < (runSched initSched es).counter := by
  have hinit : SpeakInv initSched := by
    constructor
    · simp [initSched]
    · intro sid hsid
      simp [initSched] at hsid
  exact speakInv_run es initSched hg hinit

/-- Witness for C4: one well-formed chunk scheduled and then completed. -/
theorem C4_speaking_iff_pending_witness :
    (∀ ev ∈ [ServerAudioEvent.audio 0 2, ServerAudioEvent.ended 0], goodEvent ev = true)
    ∧ ((runSched initSched [.audio 0 2, .ended 0]).isSpeaking = true
        ↔ (runSched initSched [.audio 0 2, .ended 0]).pending ≠ ∅) := by
  have hg : ∀ ev ∈ [ServerAudioEvent.audio 0 2, ServerAudioEvent.ended 0],
      goodEvent ev = true := by decide
  exact ⟨hg, (C4_speaking_iff_pending [.audio 0 2, .ended 0] hg).1⟩

/-- The observable schedule produced after a state depends only on the
entering nextStartTime marker: running the events appends schedOf. -/
theorem runSched_obs (es : List ServerAudioEvent) :
    ∀ st : SchedState,
      (runSched st es).log.map SchedLogEntry.obs
        = st.log.map SchedLogEntry.obs ++ schedOf st.nextStartTime es := by
  induction es with
  | nil => intro st; simp [runSched, schedOf]
  | cons e es ih =>
      intro st
      cases e with
      | audio t b =>
          by_cases hb : b % 2 = 0
          · simp only [runSched, ih, schedStep, schedOf, hb, if_pos]
            simp [SchedLogEntry.obs]
          · simp only [runSched, ih, schedStep, schedOf]
            simp [hb]
      | badBase64 t =>
          simp only [runSched, ih, schedStep, schedOf]
      | ended sid =>
          simp only [runSched, ih, schedStep, schedOf]

/-- The pending set and the allocation counter after running events depend
only on their entering values. -/
theorem runSched_pending_congr (es : List ServerAudioEvent) :
    ∀ st₁ st₂ : SchedState, st₁.pending = st₂.pending → st₁.counter = st₂.counter →
      (runSched st₁ es).pending = (runSched st₂ es).pending
      ∧ (runSched st₁ es).counter = (runSched st₂ es).counter := by
  induction es with
  | nil => intro st₁ st₂ hp hc; exact ⟨hp, hc⟩
  | cons e es ih =>
      intro st₁ st₂ hp hc
      cases e with
      | audio t b =>
          by_cases hb : b % 2 = 0
          · exact ih _ _ (by simp [schedStep, hb, hp, hc]) (by simp [schedStep, hb, hc])
          · exact ih _ _ (by simp [schedStep, hb, hp]) (by simp [schedStep, hb, hc])
      | badBase64 t =>
          exact ih _ _ (by simp [schedStep, hp]) (by simp [schedStep, hc])
      | ended sid =>
          exact ih _ _ (by simp [schedStep, hp]) (by simp [schedStep, hc])

/-- Raising the entering marker to max with a time at or before every later
clock reading does not change the observable schedule. -/
theorem schedOf_max_absorb (es : List ServerAudioEvent) :
    ∀ n t0 : ℚ, (∀ ev ∈ es, ∀ t ∈ eventClock ev, t0 ≤ t) →
      schedOf (max n t0) es = schedOf n es := by
  induction es with
  | nil => intro n t0 _; rfl
  | cons e es ih =>
      intro n t0 h
      cases e with
      | audio t b =>
          have ht : t0 ≤ t := h _ (List.mem_cons_self _ _) t (by simp [eventClock])
          have hmax : max (max n t0) t = max n t := by
            rw [max_assoc, max_eq_right ht]
          by_cases hb : b % 2 = 0 <;> simp [schedOf, hmax, hb]
      | badBase64 t =>
          have ht : t0 ≤ t := h _ (List.mem_cons_self _ _) t (by simp [eventClock])
          have hmax : max (max n t0) t = max n t := by
            rw [max_assoc, max_eq_right ht]
          simp [schedOf, hmax]
      | ended sid =>
          simp only [schedOf]
          exact ih n t0 fun ev hev t htc => h ev (List.mem_cons_of_mem _ hev) t htc

/-- Claim C7: a malformed inbound audio payload (bad base64, or a byte count
on which the Int16Array construction throws) is dropped — nothing is
scheduled and the pending set is untouched, the step is total so the
scheduler does not crash — and, as long as the output clock does not run
backwards below that reading, every subsequent well-formed chunk is
scheduled exactly as it would have been without the malformed chunk, so
nextStartTime advancement is not stalled. -/
theorem C7_malformed_chunk_dropped (st : SchedState) (clockNow : ℚ)
    (es : List ServerAudioEvent)
    (hmono : ∀ ev ∈ es, ∀ t ∈ eventClock ev, clockNow ≤ t) :
    (schedStep st (.badBase64 clockNow)).log = st.log
    ∧ (schedStep st (.badBase64 clockNow)).pending = st.pending
    ∧ (∀ b : ℕ, b % 2 = 1 →
        (schedStep st (.audio clockNow b)).log = st.log
        ∧ (schedStep st (.audio clockNow b)).pending = st.pending)
    ∧ (runSched (schedStep st (.badBase64 clockNow)) es).log.map SchedLogEntry.obs
        = (runSched st es).log.map SchedLogEntry.obs
    ∧ (runSched (schedStep st (.badBase64 clockNow)) es).pending
        = (runSched st es).pending := by
  refine ⟨rfl, rfl, ?_, ?_, ?_⟩
  · intro b hb
    have hb2 : ¬ b % 2 = 0 := by omega
    constructor <;> simp [schedStep, hb2]
  · rw [runSched_obs, runSched_obs]
    show st.log.map SchedLogEntry.obs ++ schedOf (max st.nextStartTime clockNow) es
        = st.log.map SchedLogEntry.obs ++ schedOf st.nextStartTime es
    rw [schedOf_max_absorb es st.nextStartTime clockNow hmono]
  · exact (runSched_pending_congr es (schedStep st (.badBase64 clockNow)) st rfl rfl).1

/-- Witness for C7: a malformed chunk at clock 1 followed by a well-formed
chunk at clock 2. -/
theorem C7_malformed_chunk_dropped_witness :
    (∀ ev ∈ [ServerAudioEvent.audio 2 4], ∀ t ∈ eventClock ev, (1 : ℚ) ≤ t)
    ∧ (runSched (schedStep initSched (.badBase64 1)) [.audio 2 4]).log.map
        SchedLogEntry.obs
      = (runSched initSched [.audio 2 4]).log.map SchedLogEntry.obs := by
  have hmono : ∀ ev ∈ [ServerAudioEvent.audio 2 4], ∀ t ∈ eventClock ev, (1 : ℚ) ≤ t := by
    intro ev hev t ht
    simp only [List.mem_singleton] at hev
    subst hev
    simp only [eventClock, Option.mem_def, Option.some.injEq] at ht
    subst ht
    norm_num
  exact ⟨hmono, (C7_malformed_chunk_dropped initSched 1 [.audio 2 4] hmono).2.2.2.1⟩

/-- Claim C8: when a second chunk is processed while the output clock has
not passed the first chunk\x27s scheduled end, its scheduled start is exactly
the first chunk\x27s scheduled start plus the first duration, because
nextStartTime is advanced by the duration immediately on scheduling. -/
theorem C8_back_to_back_exact_start (st : SchedState) (t1 t2 : ℚ) (b1 b2 : ℕ)
    (h1 : b1 % 2 = 0) (h2 : b2 % 2 = 0)
    (hgap : t2 ≤ max st.nextStartTime t1 + chunkDuration b1) :
    (schedStep (schedStep st (.audio t1 b1)) (.audio t2 b2)).log.map SchedLogEntry.start
      = st.log.map SchedLogEntry.start
        ++ [max st.nextStartTime t1, max st.nextStartTime t1 + chunkDuration b1] := by
  have hmax : max (max st.nextStartTime t1 + chunkDuration b1) t2
      = max st.nextStartTime t1 + chunkDuration b1 := max_eq_left hgap
  simp [schedStep, h1, h2, hmax]

/-- Witness for C8 at the scenario of the specification: chunks of duration
1.0 s (48000 bytes) and 0.5 s (24000 bytes) back to back. -/
theorem C8_back_to_back_exact_start_witness :
    (9 / 10 : ℚ) ≤ max initSched.nextStartTime 0 + chunkDuration 48000
    ∧ (schedStep (schedStep initSched (.audio 0 48000)) (.audio (9 / 10) 24000)).log.map
        SchedLogEntry.start
      = initSched.log.map SchedLogEntry.start
        ++ [max initSched.nextStartTime 0, max initSched.nextStartTime 0 + chunkDuration 48000] := by
  have hgap : (9 / 10 : ℚ) ≤ max initSched.nextStartTime 0 + chunkDuration 48000 := by
    norm_num [initSched, chunkDuration]
  exact ⟨hgap,
    C8_back_to_back_exact_start initSched 0 (9 / 10) 48000 24000 (by norm_num) (by norm_num) hgap⟩

/-- Round-trip of a 6-bit value through the base64 alphabet. -/
theorem b64Index_b64Char : ∀ i : ℕ, i < 64 → b64Index (b64Char i) = i := by decide

/-- No alphabet character is the padding character. -/
theorem b64Char_ne_pad : ∀ i : ℕ, i < 64 → b64Char i ≠ padChar := by decide

/-- Decoding inverts encoding on any byte list. -/
theorem base64_roundtrip :
    ∀ bs : List ℕ, (∀ x ∈ bs, x < 256) → base64Decode (base64Encode bs) = bs
  | [], _ => rfl
  | [a], h => by
      have ha : a < 256 := h a (by simp)
      have h1 : b64Index (b64Char (a / 4)) = a / 4 := b64Index_b64Char _ (by omega)
      have h2 : b64Index (b64Char (a % 4 * 16)) = a % 4 * 16 := b64Index_b64Char _ (by omega)
      have hval : b64Index (b64Char (a / 4)) * 4 + b64Index (b64Char (a % 4 * 16)) / 16 = a := by
        rw [h1, h2]
        omega
      simp [base64Encode, base64Decode, hval]
  | [a, b], h => by
      have ha : a < 256 := h a (by simp)
      have hb : b < 256 := h b (by simp)
      have hne : b64Char (b % 16 * 4) ≠ padChar := b64Char_ne_pad _ (by omega)
      have h1 : b64Index (b64Char (a / 4)) = a / 4 := b64Index_b64Char _ (by omega)
      have h2 : b64Index (b64Char (a % 4 * 16 + b / 16)) = a % 4 * 16 + b / 16 :=
        b64Index_b64Char _ (by omega)
      have h3 : b64Index (b64Char (b % 16 * 4)) = b % 16 * 4 := b64Index_b64Char _ (by omega)
      have hv1 : b64Index (b64Char (a / 4)) * 4
          + b64Index (b64Char (a % 4 * 16 + b / 16)) / 16 = a := by
        rw [h1, h2]
        omega
      have hv2 : b64Index (b64Char (a % 4 * 16 + b / 16)) % 16 * 16
          + b64Index (b64Char (b % 16 * 4)) / 4 = b := by
        rw [h2, h3]
        omega
      simp [base64Encode, base64Decode, hne, hv1, hv2]
  | a :: b :: c :: rest, h => by
      have ha : a < 256 := h a (by simp)
      have hb : b < 256 := h b (by simp)
      have hc : c < 256 := h c (by simp)
      have ih := base64_roundtrip rest fun x hx => h x (by simp [hx])
      have hne3 : b64Char (b % 16 * 4 + c / 64) ≠ padChar := b64Char_ne_pad _ (by omega)
      have hne4 : b64Char (c % 64) ≠ padChar := b64Char_ne_pad _ (by omega)
      have h1 : b64Index (b64Char (a / 4)) = a / 4 := b64Index_b64Char _ (by omega)
      have h2 : b64Index (b64Char (a % 4 * 16 + b / 16)) = a % 4 * 16 + b / 16 :=
        b64Index_b64Char _ (by omega)
      have h3 : b64Index (b64Char (b % 16 * 4 + c / 64)) = b % 16 * 4 + c / 64 :=
        b64Index_b64Char _ (by omega)
      have h4 : b64Index (b64Char (c % 64)) = c % 64 := b64Index_b64Char _ (by omega)
      have hv1 : b64Index (b64Char (a / 4)) * 4
          + b64Index (b64Char (a % 4 * 16 + b / 16)) / 16 = a := by
        rw [h1, h2]
        omega
      have hv2 : b64Index (b64Char (a % 4 * 16 + b / 16)) % 16 * 16
          + b64Index (b64Char (b % 16 * 4 + c / 64)) / 4 = b := by
        rw [h2, h3]
        omega
      have hv3 : b64Index (b64Char (b % 16 * 4 + c / 64)) % 4 * 64
          + b64Index (b64Char (c % 64)) = c := by
        rw [h3, h4]
        omega
      simp [base64Encode, base64Decode, hne3, hne4, hv1, hv2, hv3, ih]

/-- Reading the little-endian byte view back recovers the 16-bit values. -/
theorem bytes_int16_roundtrip :
    ∀ vs : List ℤ, (∀ v ∈ vs, -32768 ≤ v ∧ v ≤ 32767) →
      bytesToInt16sLE (int16sToBytesLE vs) = vs
  | [], _ => rfl
  | v :: vs, h => by
      have hv := h v (by simp)
      have ih := bytes_int16_roundtrip vs fun x hx => h x (by simp [hx])
      have hm : 0 ≤ v % 65536 := Int.emod_nonneg v (by norm_num)
      have hm2 : v % 65536 < 65536 := Int.emod_lt_of_pos v (by norm_num)
      rw [show int16sToBytesLE (v :: vs)
            = (v % 65536).toNat % 256 :: (v % 65536).toNat / 256 :: int16sToBytesLE vs
          from rfl]
      simp only [bytesToInt16sLE, ih]
      rw [List.cons_eq_cons]
      refine ⟨?_, rfl⟩
      split_ifs with hcond
      · omega
      · omega

/-- Every byte of the view is below 256. -/
theorem int16sToBytesLE_lt :
    ∀ vs : List ℤ, ∀ x ∈ int16sToBytesLE vs, x < 256
  | [], x, hx => by simp [int16sToBytesLE] at hx
  | v :: vs, x, hx => by
      have hm : 0 ≤ v % 65536 := Int.emod_nonneg v (by norm_num)
      have hm2 : v % 65536 < 65536 := Int.emod_lt_of_pos v (by norm_num)
      simp only [int16sToBytesLE, int16ToBytesLE, List.cons_append, List.nil_append,
        List.mem_cons] at hx
      rcases hx with h | h | h
      · subst h
        omega
      · subst h
        omega
      · exact int16sToBytesLE_lt vs x h

/-- On a sample in [-1, 1) the stored value is the plain truncation of the
linear scaling, with no wrap, and lies in the signed 16-bit range. -/
theorem pcmSample_linear (x : ℚ) (h0 : -1 ≤ x) (h1 : x < 1) :
    pcmSample x = jsTrunc (x * 32768)
    ∧ -32768 ≤ pcmSample x ∧ pcmSample x ≤ 32767 := by
  have hlo : (-32768 : ℚ) ≤ x * 32768 := by linarith
  have hhi : x * 32768 < 32768 := by linarith
  have hb : -32768 ≤ jsTrunc (x * 32768) ∧ jsTrunc (x * 32768) ≤ 32767 := by
    unfold jsTrunc
    split_ifs with hx
    · constructor
      · exact Int.le_floor.mpr (by exact_mod_cast hlo)
      · have hfl : ⌊x * 32768⌋ < 32768 := Int.floor_lt.mpr (by exact_mod_cast hhi)
        omega
    · constructor
      · have h2 : ((-32768 : ℤ) : ℚ) ≤ x * 32768 := by exact_mod_cast hlo
        have h3 : ((-32768 : ℤ) : ℚ) ≤ (⌈x * 32768⌉ : ℚ) :=
          le_trans h2 (Int.le_ceil (x * 32768))
        exact_mod_cast h3
      · push_neg at hx
        have hcl : ⌈x * 32768⌉ ≤ 0 := Int.ceil_le.mpr (by exact_mod_cast le_of_lt hx)
        omega
  have heq : toInt16 (x * 32768) = jsTrunc (x * 32768) := by
    unfold toInt16
    omega
  refine ⟨heq, ?_, ?_⟩
  · show -32768 ≤ toInt16 (x * 32768)
    rw [heq]
    exact hb.1
  · show toInt16 (x * 32768) ≤ 32767
    rw [heq]
    exact hb.2

/-- Counterexample to claim C5 as stated: the sample 1.0 is inside the
claimed domain [-1.0, 1.0], but its linear scaling is 1.0 * 32768 = 32768,
which is NOT representable in a signed 16-bit integer; the Int16Array store
wraps it to -32768, so the positive full-scale sample is encoded as the most
negative value instead of a linear scaling into range. -/
theorem C5_counterexample_full_scale :
    pcmSample 1 = -32768
    ∧ jsTrunc ((1 : ℚ) * 32768) = 32768
    ∧ ¬ jsTrunc ((1 : ℚ) * 32768) ≤ 32767 := by
  have hcast : ((1 : ℚ) * 32768) = ((32768 : ℤ) : ℚ) := by norm_num
  have h2 : jsTrunc ((1 : ℚ) * 32768) = 32768 := by
    unfold jsTrunc
    rw [if_pos (by norm_num), hcast, Int.floor_intCast]
  refine ⟨?_, h2, by omega⟩
  show toInt16 ((1 : ℚ) * 32768) = -32768
  unfold toInt16
  rw [h2]
  decide

/-- Claim C5 as amended: for every input block whose samples lie in the
half-open range [-1.0, 1.0), exactly one chunk is emitted whose samples are
the linear scaling by 32768 truncated toward zero, each in the signed 16-bit
range [-32768, 32767] with no wrap, packed as little-endian byte pairs
(invertible back to the samples) and base64-encoded (invertible back to the
bytes), tagged audio/pcm;rate=16000.  At the right endpoint 1.0 the scaling
leaves the representable range and the store wraps. -/
theorem C5_encoder_linear_in_range (data : List ℚ)
    (h : ∀ x ∈ data, -1 ≤ x ∧ x < 1) :
    (∀ x ∈ data, pcmSample x = jsTrunc (x * 32768)
        ∧ -32768 ≤ pcmSample x ∧ pcmSample x ≤ 32767)
    ∧ bytesToInt16sLE (int16sToBytesLE (pcmSamples data)) = pcmSamples data
    ∧ base64Decode (createPcmBlob data).data = int16sToBytesLE (pcmSamples data)
    ∧ (createPcmBlob data).mimeType = "audio/pcm;rate=16000" := by
  have hlin : ∀ x ∈ data, pcmSample x = jsTrunc (x * 32768)
      ∧ -32768 ≤ pcmSample x ∧ pcmSample x ≤ 32767 :=
    fun x hx => pcmSample_linear x (h x hx).1 (h x hx).2
  have hrange : ∀ v ∈ pcmSamples data, -32768 ≤ v ∧ v ≤ 32767 := by
    intro v hv
    obtain ⟨x, hx, rfl⟩ := List.mem_map.mp hv
    exact ⟨(hlin x hx).2.1, (hlin x hx).2.2⟩
  refine ⟨hlin, bytes_int16_roundtrip _ hrange, ?_, rfl⟩
  exact base64_roundtrip _ (int16sToBytesLE_lt (pcmSamples data))

/-- Witness for C5 on the block [0.5, -1.0]. -/
theorem C5_encoder_linear_in_range_witness :
    (∀ x ∈ [(1 / 2 : ℚ), -1], -1 ≤ x ∧ x < 1)
    ∧ bytesToInt16sLE (int16sToBytesLE (pcmSamples [(1 / 2 : ℚ), -1]))
        = pcmSamples [(1 / 2 : ℚ), -1]
    ∧ base64Decode (createPcmBlob [(1 / 2 : ℚ), -1]).data
        = int16sToBytesLE (pcmSamples [(1 / 2 : ℚ), -1]) := by
  have h : ∀ x ∈ [(1 / 2 : ℚ), -1], -1 ≤ x ∧ x < 1 := by
    intro x hx
    simp only [List.mem_cons, List.not_mem_nil, or_false] at hx
    rcases hx with rfl | rfl
    · norm_num
    · norm_num
  exact ⟨h, (C5_encoder_linear_in_range [(1 / 2 : ℚ), -1] h).2.1,
    (C5_encoder_linear_in_range [(1 / 2 : ℚ), -1] h).2.2.1⟩

/-- Claim C6, on the failing run: after a full session lifecycle (camera
acquired, session started creating the 16 kHz input context and the 24 kHz
output context, connection opened, then cleanup) the tracks are stopped, the
timer cleared and the processor disconnected, and the context ledger shows
the bug — the 24 kHz output context held in audioContextRef is closed but
the 16 kHz input context, which was never stored in any ref, is left open,
contradicting the claim that both audio contexts are closed. -/
theorem C6_cleanup_leaves_input_context_open :
    sessionTeardownRun.tracksStopped = true
    ∧ sessionTeardownRun.timerActive = false
    ∧ sessionTeardownRun.processorConnected = false
    ∧ sessionTeardownRun.contexts = [⟨16000, false⟩, ⟨24000, true⟩] := by
  refine ⟨rfl, rfl, rfl, rfl⟩

/-- Plan lines are the poses in order, each at its own position. -/
theorem posePlanLines_get (ps : List Pose) :
    ∀ k i : ℕ, (posePlanLines k ps)[i]? = (ps[i]?).map fun p => poseLine (k + i) p := by
  induction ps with
  | nil =>
      intro k i
      simp [posePlanLines]
  | cons p ps ih =>
      intro k i
      cases i with
      | zero => simp [posePlanLines]
      | succ i =>
          have hadd : k + 1 + i = k + (i + 1) := by omega
          simp only [posePlanLines, List.getElem?_cons_succ, ih (k + 1) i, hadd]

/-- Claim C9: the connect handshake carries the behavioral directive built
from the full ordered pose list — for every position i the i-th plan line is
exactly the line for the i-th pose with its 0-based index, english name and
modification — declares exactly one tool group holding the single function
setPoseIndex with one required integer argument index, and requests audio as
the response modality. -/
theorem C9_connect_handshake (sequence : YogaSequence) :
    (connectToYogaSession sequence).systemInstruction
      = systemPromptHeader ++ String.intercalate "\n" (posePlanLines 0 sequence.poses)
        ++ systemPromptFooter
    ∧ (∀ i : ℕ, (posePlanLines 0 sequence.poses)[i]?
        = (sequence.poses[i]?).map fun p => poseLine i p)
    ∧ (connectToYogaSession sequence).tools = [[setPoseIndexTool]]
    ∧ setPoseIndexTool.name = "setPoseIndex"
    ∧ (setPoseIndexTool.parameters.properties.map fun pr => (pr.key, pr.kind))
        = [("index", GType.integer)]
    ∧ setPoseIndexTool.parameters.required = ["index"]
    ∧ (connectToYogaSession sequence).responseModalities = [Modality.audio] := by
  refine ⟨rfl, ?_, rfl, rfl, rfl, rfl, rfl⟩
  intro i
  simpa using posePlanLines_get sequence.poses 0 i

end TheraFlow
